import Mathlib

/-!
Verification development for the stellwerk identity and credential core.

The definitions below are shallow embeddings of the Rust source:
  * `src/socialmediathingnametbd-common/src/snowflake.rs`
  * `src/socialmediathingnametbd-common/src/model/auth.rs`
  * `src/socialmediathingnametbd-common/src/util.rs`
  * `src/socialmediathingnametbd-api/src/server/auth.rs`

Machine integers (`u64`, `u8`, `u16`) are modelled as `Nat`, with explicit
`% 2 ^ w` where the Rust code performs an `as` cast.  Instants
(`time::UtcDateTime`) and durations (`time::Duration`) are modelled as `Int`
counts of nanoseconds; subtraction of instants yields the duration between
them exactly, and `whole_milliseconds` is truncating division toward zero
(`Int.tdiv`).  A Rust panic or `expect` is modelled as `Option.none`;
fallible conversions return `Except`.
-/

/-! ## Bit layout constants (snowflake.rs lines 17-39) -/

def TIMESTAMP_BITMASK : Nat :=
  0b1111111111111111111111111111111111111111110000000000000000000000
def TIMESTAMP_OFFSET : Nat := 22
def TIMESTAMP_LENGTH : Nat := 42

def WORKER_ID_BITMASK : Nat :=
  0b0000000000000000000000000000000000000000001111100000000000000000
def WORKER_ID_OFFSET : Nat := 17
def WORKER_ID_LENGTH : Nat := 5

def PROCESS_ID_BITMASK : Nat :=
  0b0000000000000000000000000000000000000000000000011111000000000000
def PROCESS_ID_OFFSET : Nat := 12
def PROCESS_ID_LENGTH : Nat := 5

def INCREMENT_BITMASK : Nat :=
  0b0000000000000000000000000000000000000000000000000000111111111111
def INCREMENT_OFFSET : Nat := 0
def INCREMENT_LENGTH : Nat := 12

/-! ## Snowflake parts (macro `snowflake_part!` / `__snowflake_part_impls!`)

Each part type (`WorkerId`, `ProcessId`, `SnowflakeIncrement`,
`SnowflakeTimestamp`) wraps a range-checked scalar.  The macro generates,
for each part:

  * `new (id) = (id < 1 << LENGTH).then_some(Self(id))`
  * `new_unchecked (id) = new(id).expect(...)` - panic modelled as `none`
  * `From<Snowflake>`: `new_unchecked(((value.get() | BITMASK) >> OFFSET) as repr)`

`reprBits` is the bit width of the Rust representation type, applied where
the source performs the `as $repr` cast. -/

def snowflakePartNew (length id : Nat) : Option Nat :=
  if id < 1 <<< length then some id else none

/-- `new_unchecked`, the panic modelled as `none`. -/
def snowflakePartNewUnchecked (length id : Nat) : Option Nat :=
  snowflakePartNew length id

/-- The macro-generated `impl From<Snowflake<E>> for Part`:
`Self::new_unchecked(((value.get() | $bitmask) >> $offset) as $repr)`. -/
def snowflakePartFromSnowflake (bitmask offset reprBits length snowflake : Nat) :
    Option Nat :=
  snowflakePartNewUnchecked length (((snowflake ||| bitmask) >>> offset) % 2 ^ reprBits)

def workerIdFromSnowflake (snowflake : Nat) : Option Nat :=
  snowflakePartFromSnowflake WORKER_ID_BITMASK WORKER_ID_OFFSET 8 WORKER_ID_LENGTH snowflake

def processIdFromSnowflake (snowflake : Nat) : Option Nat :=
  snowflakePartFromSnowflake PROCESS_ID_BITMASK PROCESS_ID_OFFSET 8 PROCESS_ID_LENGTH snowflake

def incrementFromSnowflake (snowflake : Nat) : Option Nat :=
  snowflakePartFromSnowflake INCREMENT_BITMASK INCREMENT_OFFSET 16 INCREMENT_LENGTH snowflake

def timestampFromSnowflake (snowflake : Nat) : Option Nat :=
  snowflakePartFromSnowflake TIMESTAMP_BITMASK TIMESTAMP_OFFSET 64 TIMESTAMP_LENGTH snowflake

/-- `Snowflake::from_parts` (snowflake.rs lines 212-224): each part shifted to
its offset and bitwise-ORed.  Arguments are the `get()` values of the four
width-checked parts. -/
def snowflakeFromParts (timestamp workerId processId increment : Nat) : Nat :=
  timestamp <<< TIMESTAMP_OFFSET |||
  workerId <<< WORKER_ID_OFFSET |||
  processId <<< PROCESS_ID_OFFSET |||
  increment <<< INCREMENT_OFFSET

/-! ## Timestamp encoding and decoding (snowflake.rs lines 185-203) -/

inductive SnowflakeTimestampFromDateTimeError where
  | TimeBeforeEpoch
  | TimestampTooLarge
  deriving DecidableEq, Repr

/-- `u64::try_from(millis : i128)`: succeeds exactly on `0 ≤ millis < 2^64`. -/
def u64TryFromInt (millis : Int) : Option Nat :=
  if 0 ≤ millis ∧ millis < 2 ^ 64 then some millis.toNat else none

/-- `impl TryFrom<UtcDateTime> for SnowflakeTimestamp` (snowflake.rs lines
185-196).  Instants are `Int` nanoseconds; `EPOCH_TIME - value` is the exact
difference and `whole_milliseconds` truncates toward zero.

```
let millis = (SnowflakeEpoch::EPOCH_TIME - value).whole_milliseconds();
if millis < 0 { return Err(TimeBeforeEpoch); }
let millis_u64 = u64::try_from(millis).map_err(|_| TimestampTooLarge)?;
Self::new(millis_u64).ok_or(TimestampTooLarge)
``` -/
def snowflakeTimestampTryFromDateTime (epochTime value : Int) :
    Except SnowflakeTimestampFromDateTimeError Nat :=
  let millis := Int.tdiv (epochTime - value) 1000000
  if millis < 0 then
    .error .TimeBeforeEpoch
  else
    match u64TryFromInt millis with
    | none => .error .TimestampTooLarge
    | some millisU64 =>
      match snowflakePartNew TIMESTAMP_LENGTH millisU64 with
      | none => .error .TimestampTooLarge
      | some t => .ok t

/-- `impl From<SnowflakeTimestamp> for UtcDateTime` (snowflake.rs lines
198-203): `EPOCH_TIME + Duration::milliseconds(value.0.try_into().expect(..))`.
The `u64 -> i64` conversion panics (modelled `none`) for values `≥ 2^63`. -/
def utcDateTimeFromSnowflakeTimestamp (epochTime : Int) (timestamp : Nat) :
    Option Int :=
  if timestamp < 2 ^ 63 then some (epochTime + (timestamp : Int) * 1000000) else none

/-- `SnowflakeIncrement::next` (snowflake.rs lines 151-153):
`(self.0 + 1) % (1 << INCREMENT_LENGTH)`. -/
def snowflakeIncrementNext (increment : Nat) : Nat :=
  (increment + 1) % (1 <<< INCREMENT_LENGTH)

/-! ## Generator (snowflake.rs lines 290-340) -/

structure SnowflakeGenerator where
  worker_id : Nat
  process_id : Nat
  next_increment : Nat
  deriving DecidableEq, Repr

/-- `SnowflakeGenerator::new` (snowflake.rs lines 300-307). -/
def SnowflakeGenerator.mk0 (workerId processId : Nat) : SnowflakeGenerator :=
  { worker_id := workerId, process_id := processId, next_increment := 0 }

/-- `SnowflakeGenerator::generate_at` (snowflake.rs lines 319-332).  Returns
the minted snowflake together with the updated generator state; `none` models
the panic inside `SnowflakeTimestamp::from_time_unchecked` when the instant
cannot be encoded. -/
def SnowflakeGenerator.generate_at (epochTime : Int) (g : SnowflakeGenerator)
    (time : Int) : Option (Nat × SnowflakeGenerator) :=
  match snowflakeTimestampTryFromDateTime epochTime time with
  | .error _ => none
  | .ok ts =>
    some (snowflakeFromParts ts g.worker_id g.process_id g.next_increment,
      { g with next_increment := snowflakeIncrementNext g.next_increment })

/-! ## Decimal rendering and parsing of user ids

`Id<UserMarker>` displays as the decimal form of its packed `u64`
(model/mod.rs lines 56-60, snowflake.rs lines 272-276); `u64::from_str`
parses an optional leading plus sign followed by one or more ASCII digits,
rejecting anything else and values that do not fit in 64 bits. -/

def digitChar (d : Nat) : Char := Char.ofNat (48 + d)

def digitVal (c : Char) : Option Nat :=
  if 48 ≤ c.toNat ∧ c.toNat ≤ 57 then some (c.toNat - 48) else none

/-- Little-endian decimal digits of `n`, as produced (reversed) by the
standard library `Display` for unsigned integers. -/
def natDigitsRev (n : Nat) : List Char :=
  if _h : n < 10 then [digitChar n]
  else digitChar (n % 10) :: natDigitsRev (n / 10)
decreasing_by exact Nat.div_lt_self (by omega) (by omega)

/-- Decimal rendering of a `u64`, most significant digit first. -/
def natToChars (n : Nat) : List Char := (natDigitsRev n).reverse

def parseDigitsAcc : Nat → List Char → Option Nat
  | acc, [] => some acc
  | acc, c :: cs =>
    match digitVal c with
    | none => none
    | some d => parseDigitsAcc (acc * 10 + d) cs

def parseDigits (s : List Char) : Option Nat :=
  match s with
  | [] => none
  | _ => parseDigitsAcc 0 s

/-- Rust `u64::from_str`: optional leading plus sign, then one or more ASCII
digits; values `≥ 2^64` overflow and fail. -/
def u64FromStr (s : List Char) : Option Nat :=
  let digits :=
    match s with
    | '+' :: rest => rest
    | _ => s
  match parseDigits digits with
  | none => none
  | some v => if v < 2 ^ 64 then some v else none

/-! ## Standard padded base64 (the `BASE64_STANDARD` engine)

The `base64` crate is an external dependency; these definitions implement
its documented behaviour (RFC 4648 standard alphabet, padding required and
canonical, non-zero trailing bits rejected). -/

def b64Alphabet : List Char :=
  ['A', 'B', 'C', 'D', 'E', 'F', 'G', 'H', 'I', 'J', 'K', 'L', 'M',
   'N', 'O', 'P', 'Q', 'R', 'S', 'T', 'U', 'V', 'W', 'X', 'Y', 'Z',
   'a', 'b', 'c', 'd', 'e', 'f', 'g', 'h', 'i', 'j', 'k', 'l', 'm',
   'n', 'o', 'p', 'q', 'r', 's', 't', 'u', 'v', 'w', 'x', 'y', 'z',
   '0', '1', '2', '3', '4', '5', '6', '7', '8', '9', '+', '/']

def b64Char (i : Nat) : Char := b64Alphabet.getD i 'A'

def b64CharIndexAux (c : Char) : List Char → Nat → Option Nat
  | [], _ => none
  | a :: as, i => if a = c then some i else b64CharIndexAux c as (i + 1)

def b64CharIndex (c : Char) : Option Nat := b64CharIndexAux c b64Alphabet 0

def b64Encode : List Nat → List Char
  | [] => []
  | [b0] => [b64Char (b0 / 4), b64Char (b0 % 4 * 16), '=', '=']
  | [b0, b1] =>
    [b64Char (b0 / 4), b64Char (b0 % 4 * 16 + b1 / 16), b64Char (b1 % 16 * 4), '=']
  | b0 :: b1 :: b2 :: rest =>
    b64Char (b0 / 4) :: b64Char (b0 % 4 * 16 + b1 / 16) ::
    b64Char (b1 % 16 * 4 + b2 / 64) :: b64Char (b2 % 64) :: b64Encode rest

def b64Decode : List Char → Option (List Nat)
  | [] => some []
  | c0 :: c1 :: c2 :: c3 :: rest =>
    match b64CharIndex c0, b64CharIndex c1 with
    | some i0, some i1 =>
      if c2 = '=' then
        if c3 = '=' then
          if rest = [] then
            if i1 % 16 = 0 then some [i0 * 4 + i1 / 16] else none
          else none
        else none
      else
        match b64CharIndex c2 with
        | none => none
        | some i2 =>
          if c3 = '=' then
            if rest = [] then
              if i2 % 4 = 0 then some [i0 * 4 + i1 / 16, i1 % 16 * 16 + i2 / 4]
              else none
            else none
          else
            match b64CharIndex c3 with
            | none => none
            | some i3 =>
              match b64Decode rest with
              | none => none
              | some bs =>
                some ((i0 * 4 + i1 / 16) :: (i1 % 16 * 16 + i2 / 4) ::
                  (i2 % 4 * 64 + i3) :: bs)
    | _, _ => none
  | _ => none

/-! ## AuthToken wire encoding (model/auth.rs) -/

def AUTH_TOKEN_CORE_LEN : Nat := 24
def AUTH_TOKEN_SALT_LEN : Nat := 18

/-- `AuthToken` (model/auth.rs lines 37-42).  `user_id` is the packed `u64`
of the `Id<UserMarker>`; `core` and `salt` are byte lists whose lengths 24
and 18 the Rust array types fix, carried here as hypotheses. -/
structure AuthToken where
  user_id : Nat
  core : List Nat
  salt : List Nat
  deriving DecidableEq, Repr

inductive AuthTokenDecodeError where
  | NotEnoughParts
  | InvalidUserId
  | Decode
  | InvalidCoreLength
  | InvalidSaltLength
  deriving DecidableEq, Repr

/-- Split at the first occurrence of `sep`; `none` when `sep` is absent.
`splitn(3, ':')` in `from_str` is two chained applications: the remainder of
the second split absorbs all later separators. -/
def splitFirst (sep : Char) : List Char → Option (List Char × List Char)
  | [] => none
  | c :: cs =>
    if c = sep then some ([], cs)
    else
      match splitFirst sep cs with
      | none => none
      | some (a, b) => some (c :: a, b)

/-- `impl FromStr for AuthToken` (model/auth.rs lines 89-117). -/
def AuthToken.fromStr (s : List Char) : Except AuthTokenDecodeError AuthToken :=
  match splitFirst ':' s with
  | none => .error .NotEnoughParts
  | some (userIdPart, rest) =>
    match splitFirst ':' rest with
    | none => .error .NotEnoughParts
    | some (corePart, saltPart) =>
      match u64FromStr userIdPart with
      | none => .error .InvalidUserId
      | some userId =>
        match b64Decode corePart with
        | none => .error .Decode
        | some core =>
          if core.length = AUTH_TOKEN_CORE_LEN then
            match b64Decode saltPart with
            | none => .error .Decode
            | some salt =>
              if salt.length = AUTH_TOKEN_SALT_LEN then
                .ok { user_id := userId, core := core, salt := salt }
              else .error .InvalidSaltLength
          else .error .InvalidCoreLength

/-- `AuthToken::as_token_str` (model/auth.rs lines 68-75):
`format!("{user_id}:{encoded_core}:{encoded_salt}")`. -/
def AuthToken.as_token_str (t : AuthToken) : List Char :=
  natToChars t.user_id ++ (':' :: (b64Encode t.core ++ (':' :: b64Encode t.salt)))

/-! ## PositiveDuration (util.rs) and Authentication validation
(server/auth.rs) -/

structure PositiveDuration where
  val : Int
  deriving DecidableEq, Repr

/-- `PositiveDuration::new` (util.rs lines 8-11):
`duration.is_positive().then_some(Self(duration))`; `Duration::is_positive`
holds exactly for durations strictly greater than zero. -/
def PositiveDuration.new (duration : Int) : Option PositiveDuration :=
  if 0 < duration then some ⟨duration⟩ else none

/-- `Authentication` (model/auth.rs lines 47-53). -/
structure Authentication where
  user : Nat
  token_hash : List Nat
  created_at : Int
  expires_after : Option PositiveDuration
  deriving DecidableEq, Repr

inductive AuthenticationRejection where
  | InvalidAuthorizationHeader
  | AuthTokenFormat (e : AuthTokenDecodeError)
  | AuthTokenUserMismatch
  | AuthTokenHash
  | InvalidToken
  deriving DecidableEq, Repr

inductive AuthOutcome where
  | ok (userId : Nat)
  | reject (r : AuthenticationRejection)
  | panic
  deriving DecidableEq, Repr

/-- The lookup-and-validation tail of `AuthenticatedUser::from_request_parts`
(server/auth.rs lines 83-103), given the token's embedded user id, the
computed token hash, the result of `fetch_auth` (lookup by hash) and the
current instant.  The `assert_eq!(authentication.token_hash, token_hash)` is
the `panic` branch; success returns `authentication.user`. -/
def checkAuthentication (tokenUserId : Nat) (tokenHash : List Nat)
    (lookup : Option Authentication) (now : Int) : AuthOutcome :=
  match lookup with
  | none => .reject .InvalidToken
  | some authentication =>
    if authentication.token_hash = tokenHash then
      if authentication.user ≠ tokenUserId then
        .reject .AuthTokenUserMismatch
      else
        match authentication.expires_after with
        | some expiresAfter =>
          if authentication.created_at + expiresAfter.val < now then
            .reject .InvalidToken
          else .ok authentication.user
        | none => .ok authentication.user
    else .panic

/-! ## Claims C1-C4, C6 -/

/-- C1: the round-trip law fails on the code.  Assembling a snowflake from the
all-zero legal parts gives the packed value 0, but re-extracting the fields
returns `2^42 - 1`, `31`, `31` and `4095` instead of the original zeros: the
extraction ORs the packed value with the bitmask instead of ANDing. -/
theorem snowflake_roundtrip_fails_at_zero_parts :
    snowflakeFromParts 0 0 0 0 = 0 ∧
    timestampFromSnowflake 0 = some 4398046511103 ∧
    workerIdFromSnowflake 0 = some 31 ∧
    processIdFromSnowflake 0 = some 31 ∧
    incrementFromSnowflake 0 = some 4095 := by
  refine ⟨rfl, rfl, rfl, rfl, rfl⟩

/-- C2: the timestamp encoding is reversed on the code.  It computes
`epoch - instant` rather than `instant - epoch`: the instant one millisecond
after the epoch is rejected as `TimeBeforeEpoch`, while the instant one
millisecond before the epoch is accepted with field value 1. -/
theorem timestamp_encoding_sign_reversed :
    snowflakeTimestampTryFromDateTime 0 1000000 =
      Except.error SnowflakeTimestampFromDateTimeError.TimeBeforeEpoch ∧
    snowflakeTimestampTryFromDateTime 0 (-1000000) = Except.ok 1 := by
  refine ⟨rfl, rfl⟩

/-- C3: encode-then-decode cannot return the original instant for instants
strictly after the epoch, because encoding an instant two milliseconds after
the epoch already fails with `TimeBeforeEpoch` (the subtraction in the
encoder is reversed); decoding field value 2 would be required to recover it. -/
theorem timestamp_encode_decode_roundtrip_fails :
    snowflakeTimestampTryFromDateTime 0 2000000 =
      Except.error SnowflakeTimestampFromDateTimeError.TimeBeforeEpoch ∧
    utcDateTimeFromSnowflakeTimestamp 0 2 = some 2000000 := by
  refine ⟨rfl, rfl⟩

/-- C4: field extraction is not total on the code.  Extracting the worker id
from the snowflake `2^22` (timestamp field 1, all other fields 0) panics:
the OR with the bitmask followed by the shift yields 63, which fails the
`new_unchecked` range check (63 ≥ 2^5). -/
theorem worker_id_extraction_panics :
    workerIdFromSnowflake (2 ^ 22) = none := by
  rfl

/-- C6: `generate_at` returns the snowflake assembled from the instant's
timestamp encoding, the generator's fixed worker id and process id and its
current increment, and advances the increment; on a fresh generator, two
consecutive calls at the same instant mint snowflakes built from increments
0 and then 1 with the same timestamp, worker id and process id. -/
theorem generate_at_spec (epochTime : Int) (w p : Nat) (t : Int) (ts : Nat)
    (h : snowflakeTimestampTryFromDateTime epochTime t = .ok ts) :
    (∀ g : SnowflakeGenerator,
      SnowflakeGenerator.generate_at epochTime g t = some
        (snowflakeFromParts ts g.worker_id g.process_id g.next_increment,
          { g with next_increment := snowflakeIncrementNext g.next_increment })) ∧
    SnowflakeGenerator.generate_at epochTime (SnowflakeGenerator.mk0 w p) t = some
        (snowflakeFromParts ts w p 0,
          { worker_id := w, process_id := p, next_increment := 1 }) ∧
    SnowflakeGenerator.generate_at epochTime
        { worker_id := w, process_id := p, next_increment := 1 } t = some
        (snowflakeFromParts ts w p 1,
          { worker_id := w, process_id := p, next_increment := 2 }) := by
  refine ⟨fun g => ?_, ?_, ?_⟩ <;>
    simp [SnowflakeGenerator.generate_at, h, SnowflakeGenerator.mk0,
      snowflakeIncrementNext, INCREMENT_LENGTH]

/-- Witness for `generate_at_spec` at epoch 0, worker 10, process 0,
instant 0 (encoded timestamp 0). -/
theorem generate_at_spec_witness :
    snowflakeTimestampTryFromDateTime 0 0 = .ok 0 ∧
    SnowflakeGenerator.generate_at 0 (SnowflakeGenerator.mk0 10 0) 0 = some
      (snowflakeFromParts 0 10 0 0,
        { worker_id := 10, process_id := 0, next_increment := 1 }) :=
  ⟨rfl, (generate_at_spec 0 10 0 0 0 rfl).2.1⟩

/-- C5: when the stored record's owning user differs from the token's
embedded user id, validation rejects with the distinct
`AuthTokenUserMismatch` outcome; with the record fetched by the token hash
(`fetch_auth` postcondition `authentication.token_hash = tokenHash`) it
never reaches the panicking assertion, and any success returns the caller's
own user id. -/
theorem user_mismatch_rejected (tokenUserId : Nat) (tokenHash : List Nat)
    (authentication : Authentication) (now : Int)
    (hhash : authentication.token_hash = tokenHash) :
    (authentication.user ≠ tokenUserId →
      checkAuthentication tokenUserId tokenHash (some authentication) now =
        .reject .AuthTokenUserMismatch) ∧
    checkAuthentication tokenUserId tokenHash (some authentication) now ≠
      .panic ∧
    (∀ u, checkAuthentication tokenUserId tokenHash (some authentication) now =
      .ok u → u = tokenUserId) := by
  subst hhash
  unfold checkAuthentication
  by_cases hu : authentication.user = tokenUserId <;>
    simp [hu] <;> rcases authentication.expires_after with _ | ea <;> simp <;>
    split <;> simp [hu]

/-- Witness for `user_mismatch_rejected`: a record stored under user 7
presented with a token embedding user 9 is rejected as a user mismatch. -/
theorem user_mismatch_rejected_witness :
    checkAuthentication 9 [1]
      (some { user := 7, token_hash := [1], created_at := 0,
              expires_after := none }) 0 =
      .reject .AuthTokenUserMismatch :=
  (user_mismatch_rejected 9 [1] _ 0 rfl).1 (by decide)

/-- C9: with the record fetched by hash and the user ids matching, a set
expiry duration rejects exactly when `created_at + expires_after` is
strictly before the current instant; presenting at or before that deadline
succeeds, and a record without an expiry duration always succeeds. -/
theorem expiry_check (tokenUserId : Nat) (tokenHash : List Nat)
    (authentication : Authentication) (now : Int)
    (hhash : authentication.token_hash = tokenHash)
    (huser : authentication.user = tokenUserId) :
    (∀ ea, authentication.expires_after = some ea →
      (checkAuthentication tokenUserId tokenHash (some authentication) now =
          .reject .InvalidToken ↔ authentication.created_at + ea.val < now)) ∧
    (∀ ea, authentication.expires_after = some ea →
      now ≤ authentication.created_at + ea.val →
      checkAuthentication tokenUserId tokenHash (some authentication) now =
        .ok tokenUserId) ∧
    (authentication.expires_after = none →
      checkAuthentication tokenUserId tokenHash (some authentication) now =
        .ok tokenUserId) := by
  subst hhash huser
  unfold checkAuthentication
  refine ⟨fun ea hea => ?_, fun ea hea hle => ?_, fun hnone => ?_⟩
  · by_cases hlt : authentication.created_at + ea.val < now <;> simp [hea, hlt]
  · simp [hea, if_neg (by omega : ¬ authentication.created_at + ea.val < now)]
  · simp [hnone]

/-- Witness for `expiry_check`: the spec scenario with creation time `T = 0`,
expiry 60 seconds (in nanoseconds) and presentation at `T + 30` seconds
succeeds and returns user 7. -/
theorem expiry_check_witness :
    checkAuthentication 7 [1]
      (some { user := 7, token_hash := [1], created_at := 0,
              expires_after := some ⟨60000000000⟩ }) 30000000000 = .ok 7 :=
  (expiry_check 7 [1] _ 30000000000 rfl rfl).2.1 ⟨60000000000⟩ rfl (by decide)

/-- C10: `PositiveDuration::new` succeeds exactly on strictly positive
durations, and any value it produces carries the original, strictly
positive duration — so optional expiry durations reachable through the
public constructors are always strictly positive. -/
theorem positive_duration_new_spec (d : Int) :
    ((PositiveDuration.new d).isSome ↔ 0 < d) ∧
    (∀ p, PositiveDuration.new d = some p → p.val = d ∧ 0 < p.val) := by
  constructor
  · unfold PositiveDuration.new
    split <;> simp_all
  · intro p hp
    unfold PositiveDuration.new at hp
    split at hp
    · rename_i h
      cases Option.some.inj hp
      exact ⟨rfl, h⟩
    · exact absurd hp (by simp)

/-- Witness for `positive_duration_new_spec` at the one-nanosecond duration. -/
theorem positive_duration_new_spec_witness :
    (PositiveDuration.new 1).isSome = true ∧
    ((1 : Int) = 1 ∧ (0 : Int) < 1) :=
  ⟨(positive_duration_new_spec 1).1.mpr (by decide),
   (positive_duration_new_spec 1).2 ⟨1⟩ rfl⟩

/-! ## Helper lemmas: base64 and decimal round trips, splitting -/

theorem b64CharIndex_b64Char (i : Nat) (h : i < 64) :
    b64CharIndex (b64Char i) = some i :=
  (by decide : ∀ j < 64, b64CharIndex (b64Char j) = some j) i h

theorem b64Char_ne_padChar (i : Nat) (h : i < 64) : b64Char i ≠ '=' :=
  (by decide : ∀ j < 64, b64Char j ≠ '=') i h

theorem b64Char_ne_colon (i : Nat) : b64Char i ≠ ':' := by
  by_cases h : i < 64
  · exact (by decide : ∀ j < 64, b64Char j ≠ ':') i h
  · unfold b64Char
    rw [List.getD_eq_default _ _ (by simp [b64Alphabet]; omega)]
    decide

theorem b64_decode_encode (bs : List Nat) (h : ∀ b ∈ bs, b < 256) :
    b64Decode (b64Encode bs) = some bs := by
  induction bs using b64Encode.induct with
  | case1 => rfl
  | case2 b0 =>
    have hb0 : b0 < 256 := h b0 (by simp)
    have h0 := b64CharIndex_b64Char (b0 / 4) (by omega)
    have h1 := b64CharIndex_b64Char (b0 % 4 * 16) (by omega)
    simp only [b64Encode, b64Decode, h0, h1]
    rw [if_pos trivial, if_pos trivial, if_pos trivial,
      if_pos (by omega : b0 % 4 * 16 % 16 = 0)]
    simp only [Option.some.injEq, List.cons.injEq, and_true]
    omega
  | case3 b0 b1 =>
    have hb0 : b0 < 256 := h b0 (by simp)
    have hb1 : b1 < 256 := h b1 (by simp)
    have h0 := b64CharIndex_b64Char (b0 / 4) (by omega)
    have h1 := b64CharIndex_b64Char (b0 % 4 * 16 + b1 / 16) (by omega)
    have h2 := b64CharIndex_b64Char (b1 % 16 * 4) (by omega)
    have hne := b64Char_ne_padChar (b1 % 16 * 4) (by omega)
    simp only [b64Encode, b64Decode, h0, h1, h2]
    rw [if_neg hne, if_pos trivial, if_pos trivial,
      if_pos (by omega : b1 % 16 * 4 % 4 = 0)]
    simp only [Option.some.injEq, List.cons.injEq, and_true]
    omega
  | case4 b0 b1 b2 rest ih =>
    have hb0 : b0 < 256 := h b0 (by simp)
    have hb1 : b1 < 256 := h b1 (by simp)
    have hb2 : b2 < 256 := h b2 (by simp)
    have hrest : ∀ b ∈ rest, b < 256 := fun b hb => h b (by simp [hb])
    have h0 := b64CharIndex_b64Char (b0 / 4) (by omega)
    have h1 := b64CharIndex_b64Char (b0 % 4 * 16 + b1 / 16) (by omega)
    have h2 := b64CharIndex_b64Char (b1 % 16 * 4 + b2 / 64) (by omega)
    have h3 := b64CharIndex_b64Char (b2 % 64) (by omega)
    have hne2 := b64Char_ne_padChar (b1 % 16 * 4 + b2 / 64) (by omega)
    have hne3 := b64Char_ne_padChar (b2 % 64) (by omega)
    simp only [b64Encode, b64Decode, h0, h1, h2, h3]
    rw [if_neg hne2, if_neg hne3, ih hrest]
    simp only [Option.some.injEq, List.cons.injEq, and_true]
    omega

theorem b64Encode_not_mem_colon (bs : List Nat) : ':' ∉ b64Encode bs := by
  induction bs using b64Encode.induct with
  | case1 => simp [b64Encode]
  | case2 b0 =>
    have g1 : ':' ≠ b64Char (b0 / 4) := (b64Char_ne_colon _).symm
    have g2 : ':' ≠ b64Char (b0 % 4 * 16) := (b64Char_ne_colon _).symm
    simp [b64Encode, g1, g2]
  | case3 b0 b1 =>
    have g1 : ':' ≠ b64Char (b0 / 4) := (b64Char_ne_colon _).symm
    have g2 : ':' ≠ b64Char (b0 % 4 * 16 + b1 / 16) := (b64Char_ne_colon _).symm
    have g3 : ':' ≠ b64Char (b1 % 16 * 4) := (b64Char_ne_colon _).symm
    simp [b64Encode, g1, g2, g3]
  | case4 b0 b1 b2 rest ih =>
    have g1 : ':' ≠ b64Char (b0 / 4) := (b64Char_ne_colon _).symm
    have g2 : ':' ≠ b64Char (b0 % 4 * 16 + b1 / 16) := (b64Char_ne_colon _).symm
    have g3 : ':' ≠ b64Char (b1 % 16 * 4 + b2 / 64) := (b64Char_ne_colon _).symm
    have g4 : ':' ≠ b64Char (b2 % 64) := (b64Char_ne_colon _).symm
    simp [b64Encode, g1, g2, g3, g4, ih]

theorem digitVal_digitChar (d : Nat) (h : d < 10) : digitVal (digitChar d) = some d :=
  (by decide : ∀ e < 10, digitVal (digitChar e) = some e) d h

theorem natDigitsRev_mem (n : Nat) :
    ∀ c ∈ natDigitsRev n, ∃ d, d < 10 ∧ c = digitChar d := by
  induction n using natDigitsRev.induct with
  | case1 n hn =>
    intro c hc
    rw [natDigitsRev, dif_pos hn] at hc
    simp only [List.mem_singleton] at hc
    exact ⟨n, hn, hc⟩
  | case2 n hn ih =>
    intro c hc
    rw [natDigitsRev, dif_neg hn] at hc
    rcases List.mem_cons.mp hc with hc | hc
    · exact ⟨n % 10, by omega, hc⟩
    · exact ih c hc

theorem natDigitsRev_ne_nil (n : Nat) : natDigitsRev n ≠ [] := by
  rw [natDigitsRev]
  split <;> simp

theorem parseDigitsAcc_append (acc : Nat) (l1 l2 : List Char) :
    parseDigitsAcc acc (l1 ++ l2) =
      match parseDigitsAcc acc l1 with
      | none => none
      | some v => parseDigitsAcc v l2 := by
  induction l1 generalizing acc with
  | nil => rfl
  | cons c cs ih =>
    simp only [List.cons_append, parseDigitsAcc]
    cases digitVal c with
    | none => rfl
    | some d => exact ih (acc * 10 + d)

theorem parseDigitsAcc_natDigitsRev (n : Nat) :
    ∀ acc, parseDigitsAcc acc (natDigitsRev n).reverse =
      some (acc * 10 ^ (natDigitsRev n).length + n) := by
  induction n using natDigitsRev.induct with
  | case1 n hn =>
    intro acc
    rw [natDigitsRev, dif_pos hn]
    simp only [List.reverse_singleton, List.length_singleton, parseDigitsAcc,
      digitVal_digitChar n hn, pow_one]
  | case2 n hn ih =>
    intro acc
    rw [natDigitsRev, dif_neg hn]
    simp only [List.reverse_cons, List.length_cons]
    rw [parseDigitsAcc_append, ih acc]
    simp only [parseDigitsAcc, digitVal_digitChar (n % 10) (by omega)]
    refine congrArg some ?_
    calc (acc * 10 ^ (natDigitsRev (n / 10)).length + n / 10) * 10 + n % 10
        = acc * (10 ^ (natDigitsRev (n / 10)).length * 10) + (n / 10 * 10 + n % 10) := by
          ring
      _ = acc * 10 ^ ((natDigitsRev (n / 10)).length + 1) + n := by
          rw [pow_succ]
          congr 1
          omega

theorem parseDigits_natToChars (n : Nat) :
    parseDigits (natToChars n) = some n := by
  unfold parseDigits natToChars
  cases hrev : (natDigitsRev n).reverse with
  | nil => exact absurd (List.reverse_eq_nil_iff.mp hrev) (natDigitsRev_ne_nil n)
  | cons c cs =>
    rw [← hrev, parseDigitsAcc_natDigitsRev n 0]
    simp only [Nat.zero_mul, Nat.zero_add]
    rw [hrev]

theorem natToChars_not_mem_colon (n : Nat) : ':' ∉ natToChars n := by
  intro hc
  obtain ⟨d, hd, he⟩ := natDigitsRev_mem n ':' (List.mem_reverse.mp hc)
  exact absurd he.symm ((by decide : ∀ e < 10, digitChar e ≠ ':') d hd)

theorem u64FromStr_natToChars (n : Nat) (h : n < 2 ^ 64) :
    u64FromStr (natToChars n) = some n := by
  unfold u64FromStr
  have hplus : (match natToChars n with
      | '+' :: rest => rest
      | _ => natToChars n) = natToChars n := by
    cases hrev : natToChars n with
    | nil => rfl
    | cons c cs =>
      have hmem0 : c ∈ natToChars n := by rw [hrev]; exact List.mem_cons_self c cs
      have hmem : c ∈ (natDigitsRev n).reverse := hmem0
      obtain ⟨d, hd, he⟩ := natDigitsRev_mem n c (List.mem_reverse.mp hmem)
      have hne : c ≠ '+' := he ▸ (by decide : ∀ e < 10, digitChar e ≠ '+') d hd
      split
      · rename_i heq
        exact absurd (List.head_eq_of_cons_eq heq.symm).symm hne
      · rfl
  rw [hplus]
  show (match parseDigits (natToChars n) with
    | none => none
    | some v => if v < 2 ^ 64 then some v else none) = some n
  rw [parseDigits_natToChars]
  show (if n < 2 ^ 64 then some n else none) = some n
  rw [if_pos h]

theorem splitFirst_append_of_not_mem (sep : Char) (a r : List Char) (ha : sep ∉ a) :
    splitFirst sep (a ++ sep :: r) = some (a, r) := by
  induction a with
  | nil => simp [splitFirst]
  | cons c cs ih =>
    have h1 : ¬(c = sep) := fun e => ha (e ▸ List.mem_cons_self c cs)
    have h2 : sep ∉ cs := fun hm => ha (List.mem_cons_of_mem c hm)
    simp only [List.cons_append, splitFirst, if_neg h1]
    rw [show cs.append (sep :: r) = cs ++ sep :: r from rfl, ih h2]

theorem splitFirst_eq_none_iff (sep : Char) (s : List Char) :
    splitFirst sep s = none ↔ sep ∉ s := by
  induction s with
  | nil => simp [splitFirst]
  | cons c cs ih =>
    unfold splitFirst
    by_cases hc : c = sep
    · subst hc
      simp
    · rw [if_neg hc]
      cases hs : splitFirst sep cs with
      | none =>
        have hni : sep ∉ cs := ih.mp hs
        have hx : ¬sep ∈ c :: cs := by
          simp only [List.mem_cons]
          push_neg
          exact ⟨fun e => hc e.symm, hni⟩
        simp [hx]
      | some p =>
        have hmem : sep ∈ cs := by
          by_contra hn
          rw [ih.mpr hn] at hs
          exact absurd hs (by simp)
        obtain ⟨a, b⟩ := p
        simp [List.mem_cons, hmem]

theorem splitFirst_eq_some (sep : Char) :
    ∀ s a r, splitFirst sep s = some (a, r) → s = a ++ sep :: r ∧ sep ∉ a := by
  intro s
  induction s with
  | nil => intro a r h; cases h
  | cons c cs ih =>
    intro a r h
    unfold splitFirst at h
    by_cases hc : c = sep
    · rw [if_pos hc] at h
      cases h
      subst hc
      simp
    · rw [if_neg hc] at h
      cases hs : splitFirst sep cs with
      | none => rw [hs] at h; cases h
      | some p =>
        obtain ⟨a1, b1⟩ := p
        rw [hs] at h
        have ha : a = c :: a1 := (Prod.ext_iff.mp (Option.some.inj h).symm).1
        have hr : r = b1 := (Prod.ext_iff.mp (Option.some.inj h).symm).2
        subst ha hr
        obtain ⟨he, hna⟩ := ih a1 r hs
        subst he
        refine ⟨rfl, ?_⟩
        simp only [List.mem_cons]
        push_neg
        exact ⟨fun e => hc e.symm, hna⟩

/-- C7: rendering any AuthToken as `"{user_id}:{base64(core)}:{base64(salt)}"`
and parsing the result recovers the token:
`parse(format(token)) == token`.  The hypotheses state what the Rust types
fix: the user id is a `u64` and core and salt are 24- and 18-byte arrays. -/
theorem auth_token_roundtrip (t : AuthToken) (hu : t.user_id < 2 ^ 64)
    (hclen : t.core.length = AUTH_TOKEN_CORE_LEN)
    (hcb : ∀ b ∈ t.core, b < 256)
    (hslen : t.salt.length = AUTH_TOKEN_SALT_LEN)
    (hsb : ∀ b ∈ t.salt, b < 256) :
    AuthToken.fromStr (AuthToken.as_token_str t) = .ok t := by
  simp only [AuthToken.as_token_str, AuthToken.fromStr,
    splitFirst_append_of_not_mem ':' _ _ (natToChars_not_mem_colon t.user_id),
    splitFirst_append_of_not_mem ':' _ _ (b64Encode_not_mem_colon t.core),
    u64FromStr_natToChars _ hu, b64_decode_encode _ hcb, b64_decode_encode _ hsb,
    hclen, hslen, if_true]

/-- Witness for `auth_token_roundtrip` on a concrete token. -/
theorem auth_token_roundtrip_witness :
    AuthToken.fromStr (AuthToken.as_token_str
      { user_id := 1, core := List.replicate 24 0, salt := List.replicate 18 0 }) =
    .ok { user_id := 1, core := List.replicate 24 0, salt := List.replicate 18 0 } :=
  auth_token_roundtrip _ (by decide) (by decide) (by decide) (by decide) (by decide)

/-- After the two successful splits, `from_str` is the flat case chain on the
three segments. -/
theorem fromStr_after_splits (a b c : List Char) (ha : ':' ∉ a) (hb : ':' ∉ b) :
    AuthToken.fromStr (a ++ (':' :: (b ++ (':' :: c)))) =
      (match u64FromStr a with
      | none => .error .InvalidUserId
      | some userId =>
        match b64Decode b with
        | none => .error .Decode
        | some core =>
          if core.length = AUTH_TOKEN_CORE_LEN then
            match b64Decode c with
            | none => .error .Decode
            | some salt =>
              if salt.length = AUTH_TOKEN_SALT_LEN then
                .ok { user_id := userId, core := core, salt := salt }
              else .error .InvalidSaltLength
          else .error .InvalidCoreLength) := by
  unfold AuthToken.fromStr
  simp only [splitFirst_append_of_not_mem ':' a _ ha,
    splitFirst_append_of_not_mem ':' b c hb]

theorem fromStr_after_splits_ne_notEnoughParts (a b c : List Char)
    (ha : ':' ∉ a) (hb : ':' ∉ b) :
    AuthToken.fromStr (a ++ (':' :: (b ++ (':' :: c)))) ≠
      .error .NotEnoughParts := by
  rw [fromStr_after_splits a b c ha hb]
  cases u64FromStr a with
  | none => simp
  | some uid =>
    cases b64Decode b with
    | none => simp
    | some core =>
      by_cases hl : core.length = AUTH_TOKEN_CORE_LEN
      · cases b64Decode c with
        | none => simp [hl]
        | some salt =>
          by_cases hsl : salt.length = AUTH_TOKEN_SALT_LEN
          · simp [hl, hsl]
          · simp [hl, hsl]
      · simp [hl]

theorem count_colon_append (a r : List Char) (ha : ':' ∉ a) :
    List.count ':' (a ++ ':' :: r) = List.count ':' r + 1 := by
  rw [List.count_append, List.count_eq_zero.mpr ha, List.count_cons_self]
  omega

/-- C8: decoding splits on the first two colons only (the salt segment
absorbs any remaining text, conjunct two), and fails with exactly one of
five error kinds in exactly these cases: `NotEnoughParts` exactly when the
string has fewer than two colons (fewer than three parts); and on the
three-way decomposition, `InvalidUserId` exactly when the user-id segment
is not a valid `u64`, `Decode` exactly when a base64 segment that is
reached fails to decode, `InvalidCoreLength` exactly when the core decodes
to a length other than `AUTH_TOKEN_CORE_LEN = 24`, and `InvalidSaltLength`
exactly when the salt decodes to a length other than
`AUTH_TOKEN_SALT_LEN = 18`. -/
theorem auth_token_decode_error_cases (s : List Char) :
    (AuthToken.fromStr s = .error .NotEnoughParts ↔ List.count ':' s < 2) ∧
    (2 ≤ List.count ':' s →
      ∃ a b c, s = a ++ (':' :: (b ++ (':' :: c))) ∧ ':' ∉ a ∧ ':' ∉ b) ∧
    (∀ a b c, s = a ++ (':' :: (b ++ (':' :: c))) → ':' ∉ a → ':' ∉ b →
      ((AuthToken.fromStr s = .error .InvalidUserId ↔ u64FromStr a = none) ∧
       (AuthToken.fromStr s = .error .Decode ↔
         ((∃ uid, u64FromStr a = some uid) ∧
          (b64Decode b = none ∨
           ∃ core, b64Decode b = some core ∧ core.length = AUTH_TOKEN_CORE_LEN ∧
             b64Decode c = none))) ∧
       (AuthToken.fromStr s = .error .InvalidCoreLength ↔
         ((∃ uid, u64FromStr a = some uid) ∧
          ∃ core, b64Decode b = some core ∧ core.length ≠ AUTH_TOKEN_CORE_LEN)) ∧
       (AuthToken.fromStr s = .error .InvalidSaltLength ↔
         ((∃ uid, u64FromStr a = some uid) ∧
          (∃ core, b64Decode b = some core ∧ core.length = AUTH_TOKEN_CORE_LEN) ∧
          ∃ salt, b64Decode c = some salt ∧
            salt.length ≠ AUTH_TOKEN_SALT_LEN)))) := by
  refine ⟨?_, ?_, ?_⟩
  · cases h1 : splitFirst ':' s with
    | none =>
      have hn : ':' ∉ s := (splitFirst_eq_none_iff ':' s).mp h1
      have hc : List.count ':' s = 0 := List.count_eq_zero.mpr hn
      simp only [AuthToken.fromStr, h1]
      simp [hc]
    | some p =>
      obtain ⟨a, r⟩ := p
      obtain ⟨hseq, hna⟩ := splitFirst_eq_some ':' s a r h1
      cases h2 : splitFirst ':' r with
      | none =>
        have hnr : ':' ∉ r := (splitFirst_eq_none_iff ':' r).mp h2
        have hc : List.count ':' s = 1 := by
          rw [hseq, count_colon_append a r hna, List.count_eq_zero.mpr hnr]
        simp only [AuthToken.fromStr, h1, h2]
        simp [hc]
      | some q =>
        obtain ⟨b, c⟩ := q
        obtain ⟨hreq, hnb⟩ := splitFirst_eq_some ':' r b c h2
        subst hreq
        subst hseq
        refine iff_of_false (fromStr_after_splits_ne_notEnoughParts a b c hna hnb) ?_
        rw [count_colon_append a _ hna, count_colon_append b c hnb]
        omega
  · intro hc2
    cases h1 : splitFirst ':' s with
    | none =>
      have hn : ':' ∉ s := (splitFirst_eq_none_iff ':' s).mp h1
      rw [List.count_eq_zero.mpr hn] at hc2
      omega
    | some p =>
      obtain ⟨a, r⟩ := p
      obtain ⟨hseq, hna⟩ := splitFirst_eq_some ':' s a r h1
      cases h2 : splitFirst ':' r with
      | none =>
        have hnr : ':' ∉ r := (splitFirst_eq_none_iff ':' r).mp h2
        rw [hseq, count_colon_append a r hna, List.count_eq_zero.mpr hnr] at hc2
        omega
      | some q =>
        obtain ⟨b, c⟩ := q
        obtain ⟨hreq, hnb⟩ := splitFirst_eq_some ':' r b c h2
        exact ⟨a, b, c, by rw [hseq, hreq], hna, hnb⟩
  · intro a b c hs ha hb
    subst hs
    rw [fromStr_after_splits a b c ha hb]
    cases hu : u64FromStr a with
    | none => simp
    | some uid =>
      cases hcb : b64Decode b with
      | none => simp
      | some core =>
        by_cases hl : core.length = AUTH_TOKEN_CORE_LEN
        · cases hcc : b64Decode c with
          | none => simp [hl]
          | some salt =>
            by_cases hsl : salt.length = AUTH_TOKEN_SALT_LEN
            · simp [hl, hsl]
            · simp [hl, hsl]
        · simp [hl]

/-- Witness for `auth_token_decode_error_cases`: the single-character string
`"1"` has no colons and is rejected with `NotEnoughParts`. -/
theorem auth_token_decode_error_cases_witness :
    AuthToken.fromStr ['1'] =
      .error AuthTokenDecodeError.NotEnoughParts :=
  (auth_token_decode_error_cases ['1']).1.mpr (by decide)
